import Mathlib

/-!
# Verification of the orbis-ship self-update mechanism

Shallow embedding of the updater code of the `mehtabshadan/orbis-ship`
repository:

* `Updater.*` embeds the API route module (the `/api/updater` route with
  module-level state `isUpdaterRunning` / `checkInterval` / `lastUpdateInfo`
  and functions `getLocalVersion`, `checkForUpdates`, `performUpdate`,
  `GET`, `POST`).
* `NextJSUpdater.*` embeds the `NextJSUpdater` class of `lib/updater`
  (`getLocalVersion`, `fetchLatestRelease`, `performUpdate`,
  `checkForUpdates`, `checkAndUpdate`).

JavaScript `string | null` values are modelled as `Option String`
(`none` = `null`); JS truthiness of such a value (`if (x)`) is
`Option.isSome ∧ ≠ ""`.  Network calls, file-system accesses and child
processes are modelled by environment records carrying each call's result,
and an explicit effect trace records which external operations a run
performs.
-/

namespace Updater

/-- `data.name.match(/\(v?([0-9]+\.[0-9]+\.[0-9]+(?:\.[0-9]+)?)\)/)` — the
maximal run of ASCII digits at the head of the character list, `none` when
there is no digit (embedding the mandatory `[0-9]+`). -/
def digits1 (cs : List Char) : Option (List Char × List Char) :=
  let ds := cs.takeWhile Char.isDigit
  if ds.isEmpty then none else some (ds, cs.dropWhile Char.isDigit)

/-- The literal `.` of the pattern. -/
def expectDot : List Char → Option (List Char)
  | '.' :: r => some r
  | _ => none

/-- The optional `v?` of the pattern: consume a leading `v` when present. -/
def dropOptV : List Char → List Char
  | 'v' :: r => r
  | r => r

/-- The optional group `(?:\.[0-9]+)?`: a dot followed by digits when
present, consuming nothing otherwise.  Returns the consumed characters and
the remainder. -/
def optSplit (r3 : List Char) : List Char × List Char :=
  match r3 with
  | '.' :: r3b =>
    match digits1 r3b with
    | some (d4, r) => ('.' :: d4, r)
    | none => ([], '.' :: r3b)
  | r => (([] : List Char), r)

/-- The closing literal `\)`: succeed with the given capture only when the
remainder starts with `)`. -/
def closeParen (r4 : List Char) (cap : List Char) : Option (List Char) :=
  match r4 with
  | ')' :: _ => some cap
  | _ => none

/-- The capture group `([0-9]+\.[0-9]+\.[0-9]+(?:\.[0-9]+)?)` followed by the
closing literal `\)`: three mandatory dot-separated digit runs, an optional
fourth, then a `)`.  Returns the captured characters.  (The regex needs no
backtracking here: every quantifier is followed by a character it can never
match, so greedy matching is complete.) -/
def matchCore (cs : List Char) : Option (List Char) :=
  match digits1 cs with
  | none => none
  | some (d1, r1) =>
    match expectDot r1 with
    | none => none
    | some r1' =>
      match digits1 r1' with
      | none => none
      | some (d2, r2) =>
        match expectDot r2 with
        | none => none
        | some r2' =>
          match digits1 r2' with
          | none => none
          | some (d3, r3) =>
            let p := optSplit r3
            closeParen p.2 (d1 ++ '.' :: d2 ++ '.' :: d3 ++ p.1)

/-- One attempt of the pattern at a fixed position: the literal `\(`,
the optional `v`, then the core.  -/
def matchAt : List Char → Option (List Char)
  | '(' :: rest => matchCore (dropOptV rest)
  | _ => none

/-- `String.prototype.match` without the `g` flag: the leftmost position at
which the pattern matches, returning capture group 1. -/
def findVersionMatch : List Char → Option String
  | [] => none
  | c :: cs =>
    match matchAt (c :: cs) with
    | some cap => some (String.mk cap)
    | none => findVersionMatch cs

/-- `tag.replace(/^v/, '')`: strip a single leading lowercase `v`. -/
def stripLeadingV (t : String) : String :=
  match t.data with
  | 'v' :: r => String.mk r
  | _ => t

/-- JS truthiness of a `string | null` value: not `null` and not `""`. -/
def jsTruthy : Option String → Bool
  | none => false
  | some s => !(s = "")

/-- JS strict inequality `!==` restricted to `string | null` operands. -/
def jsNeq (a b : Option String) : Bool := !(a = b)

/-- Version extraction from the release title (lines 150–156 of the route):
`if (data.name) { const m = data.name.match(...); if (m) latestVersion = m[1] }`. -/
def titleVersion (name : Option String) : Option String :=
  match name with
  | some n => if n = "" then none else findVersionMatch n.data
  | none => none

/-- Full extraction with the tag fallback (lines 150–161 of the route):
title match first, then `if (!latestVersion && data.tag_name)
latestVersion = data.tag_name.replace(/^v/, '')`. -/
def extractLatestVersion (name tag : Option String) : Option String :=
  let lv := titleVersion name
  if jsTruthy lv then lv
  else
    match tag with
    | some t => if t = "" then lv else some (stripLeadingV t)
    | none => lv

example : findVersionMatch "Orbis Ship Latest (v0.0.9)".data = some "0.0.9" := by decide
example : findVersionMatch "Release (v1.2.1)".data = some "1.2.1" := by decide
example : findVersionMatch "Release (1.2.1)".data = some "1.2.1" := by decide
example : findVersionMatch "Release v1.2.1".data = none := by decide
example : findVersionMatch "no version".data = none := by decide
example : findVersionMatch "(v1.2.3.4)".data = some "1.2.3.4" := by decide
example : findVersionMatch "(v1.2.3.4.5)".data = none := by decide
example : findVersionMatch "((v1.2.3)".data = some "1.2.3" := by decide
example : extractLatestVersion (some "nope") (some "v1.2.0") = some "1.2.0" := by decide
example : extractLatestVersion (some "nope") (some "v") = some "" := by decide
example : extractLatestVersion none none = none := by decide

/-- The module-level `lastUpdateInfo` record (`UpdateInfo` interface of the
route). -/
structure UpdateInfo where
  updateAvailable : Bool
  localVersion : Option String
  latestVersion : Option String
  lastCheck : String
  releaseName : Option String := none
  deriving Repr, DecidableEq

/-- Ways the GitHub release-feed call can fail: the `fetch` rejecting
(network error), `!response.ok` (non-2xx status), or `response.json()`
rejecting (malformed body).  `checkForUpdates` and `performUpdate` treat
all three identically (one `catch` block). -/
inductive FetchError where
  | network
  | httpStatus (code : Nat)
  | malformedBody
  deriving Repr, DecidableEq

/-- A release asset (`{ name, browser_download_url }`). -/
structure Asset where
  name : String
  browser_download_url : String
  deriving Repr, DecidableEq

/-- The parsed body of the `releases/latest` response, as the route reads
it: `data.name`, `data.tag_name` (either may be absent) and
`data.assets || []`. -/
structure ReleaseData where
  name : Option String
  tag_name : Option String
  assets : List Asset := []
  deriving Repr, DecidableEq

/-- External operations a run may perform, recorded as a trace. -/
inductive Effect where
  | probeConnectivity
  | fetchGithub
  | logError
  | downloadAsset (url : String)
  | writeZip
  | extractArchive
  | copyFiles
  | cleanupTemp
  | scheduleExit
  | performUpdateRun
  deriving Repr, DecidableEq

/-- Results of the outside world consulted during one `checkForUpdates`
run: the connectivity probe (`isInternetAvailable()`), the GitHub API
call, the `package.json` read (`getLocalVersion()`), and the clock. -/
structure CheckEnv where
  internetAvailable : Bool
  githubFetch : Except FetchError ReleaseData
  localVersion : Option String
  now : String
  deriving Repr

/-- `checkForUpdates` (lines 126–193 of the route).  Probes connectivity
and returns early when offline; fetches the release feed; on any fetch
failure the `catch` block logs and returns with `lastUpdateInfo`
untouched; otherwise extracts the latest version, overwrites
`lastUpdateInfo`, and sets `updateAvailable` by plain `!==` on
`localVersion` / `latestVersion`.  Returns the new value of
`lastUpdateInfo` and the effect trace. -/
def checkForUpdates (env : CheckEnv) (info : UpdateInfo) :
    UpdateInfo × List Effect :=
  if !env.internetAvailable then (info, [.probeConnectivity])
  else
    match env.githubFetch with
    | .error _ => (info, [.probeConnectivity, .fetchGithub, .logError])
    | .ok data =>
      let latestVersion := extractLatestVersion data.name data.tag_name
      let base : UpdateInfo :=
        { updateAvailable := false
          localVersion := env.localVersion
          latestVersion := latestVersion
          lastCheck := env.now
          releaseName := data.name }
      if !jsTruthy latestVersion then (base, [.probeConnectivity, .fetchGithub])
      else if jsNeq env.localVersion latestVersion then
        ({ base with updateAvailable := true }, [.probeConnectivity, .fetchGithub])
      else (base, [.probeConnectivity, .fetchGithub])

/-- `name.endsWith('.zip')`, modelled on the character list so that it
evaluates by kernel reduction. -/
def nameEndsWithZip (name : String) : Bool :=
  ".zip".data.isSuffixOf name.data

/-- `assets.find(asset => asset.name.endsWith('.zip'))`. -/
def findZipAsset (assets : List Asset) : Option Asset :=
  assets.find? (fun a => nameEndsWithZip a.name)

/-- Results of the outside world consulted during one `performUpdate` run:
the GitHub API call, the asset download (`response.ok`), the
`Expand-Archive` command, the extracted-directory scan, and the
`robocopy` command. -/
structure UpdateEnv where
  githubFetch : Except FetchError ReleaseData
  downloadOk : Bool
  extractOk : Bool
  extractedDirFound : Bool
  copyOk : Bool
  deriving Repr

/-- `performUpdate` (lines 195–247 of the route).  Fetches the release,
requires a `.zip` asset, downloads and extracts it, `robocopy`s the
extracted directory over the working directory, removes the temp
directory, and schedules `process.exit(0)` two seconds later.  Any step
failure is caught, logged, and turned into the return value `false`; on
success it returns `true`.  Note that it never consults any version or
any in-progress flag.  Returns the success flag and the effect trace. -/
def performUpdate (env : UpdateEnv) : Bool × List Effect :=
  match env.githubFetch with
  | .error _ => (false, [.fetchGithub, .logError])
  | .ok data =>
    match findZipAsset data.assets with
    | none => (false, [.fetchGithub, .logError])
    | some asset =>
      if !env.downloadOk then
        (false, [.fetchGithub, .downloadAsset asset.browser_download_url, .logError])
      else if !env.extractOk then
        (false, [.fetchGithub, .downloadAsset asset.browser_download_url,
                 .writeZip, .extractArchive, .logError])
      else if !env.extractedDirFound then
        (false, [.fetchGithub, .downloadAsset asset.browser_download_url,
                 .writeZip, .extractArchive, .logError])
      else if !env.copyOk then
        (false, [.fetchGithub, .downloadAsset asset.browser_download_url,
                 .writeZip, .extractArchive, .copyFiles, .logError])
      else
        (true, [.fetchGithub, .downloadAsset asset.browser_download_url,
                .writeZip, .extractArchive, .copyFiles, .cleanupTemp,
                .scheduleExit])

/-- The module-level mutable state of the route: `isUpdaterRunning`,
whether `checkInterval` is set, and `lastUpdateInfo`. -/
structure ServerState where
  isUpdaterRunning : Bool
  intervalActive : Bool
  lastUpdateInfo : UpdateInfo
  deriving Repr, DecidableEq

/-- The JSON envelope a `POST /api/updater` request produces, together
with its HTTP status code.  Fields absent from a given response body are
`none`. -/
structure PostResponse where
  status : Nat
  success : Bool
  message : Option String := none
  isRunning : Option Bool := none
  updateInfo : Option UpdateInfo := none
  updatePerformed : Option Bool := none
  error : Option String := none
  deriving Repr, DecidableEq

/-- The `action` field of a `POST` body. -/
inductive Action where
  | start
  | stop
  | check
  | update
  | other (s : String)
  deriving Repr, DecidableEq

/-- The outside world for one `POST` request: the environments of the
check and of the update it may run. -/
structure PostEnv where
  check : CheckEnv
  upd : UpdateEnv
  deriving Repr

/-- `POST` (lines 309–375 of the route).  `start` sets
`isUpdaterRunning`, restarts the interval and fires an immediate check;
`stop` clears both; `check` awaits `checkForUpdates` and reports the new
`lastUpdateInfo`; `update` awaits `performUpdate` (recorded by the
`performUpdateRun` effect) and reports its boolean result in a
`success: true` / HTTP 200 envelope either way; an unknown action yields
a 400 error envelope.  Returns the response, the new module state and
the effect trace. -/
def POST (a : Action) (env : PostEnv) (s : ServerState) :
    PostResponse × ServerState × List Effect :=
  match a with
  | .start =>
    let r := checkForUpdates env.check s.lastUpdateInfo
    ({ status := 200, success := true,
       message := some "Background auto-updater started",
       isRunning := some true },
     { s with isUpdaterRunning := true, intervalActive := true,
              lastUpdateInfo := r.1 },
     r.2)
  | .stop =>
    ({ status := 200, success := true,
       message := some "Background auto-updater stopped",
       isRunning := some false },
     { s with isUpdaterRunning := false, intervalActive := false },
     [])
  | .check =>
    let r := checkForUpdates env.check s.lastUpdateInfo
    ({ status := 200, success := true,
       message := some "Update check completed",
       updateInfo := some r.1 },
     { s with lastUpdateInfo := r.1 },
     r.2)
  | .update =>
    let r := performUpdate env.upd
    ({ status := 200, success := true,
       message := some (if r.1 then "Update initiated - application will restart"
                        else "Update failed"),
       updatePerformed := some r.1 },
     s,
     .performUpdateRun :: r.2)
  | .other _ =>
    ({ status := 400, success := false,
       error := some "Invalid action. Supported actions: start, stop, check, update" },
     s,
     [])

/-- How many runs of `performUpdate` the handler begins for one request. -/
def runsStarted (a : Action) (env : PostEnv) (s : ServerState) : Nat :=
  ((POST a env s).2.2).count .performUpdateRun

/-- Runs of `performUpdate` begun over a request sequence, threading the
module state from request to request. -/
def updateRunsStartedBy : List Action → PostEnv → ServerState → Nat
  | [], _, _ => 0
  | a :: rest, env, s =>
    runsStarted a env s + updateRunsStartedBy rest env (POST a env s).2.1

end Updater

namespace NextJSUpdater

/-- The release record the `NextJSUpdater` class reads
(`GitHubRelease` interface of `lib/updater`). -/
structure GitHubRelease where
  tag_name : String
  name : String
  published_at : String
  body : String
  deriving Repr, DecidableEq

/-- The result record of `NextJSUpdater.checkForUpdates`. -/
structure CheckResult where
  updateAvailable : Bool
  localVersion : Option String
  latestVersion : Option String
  releaseInfo : Option GitHubRelease := none
  deriving Repr, DecidableEq

/-- External operations of the source-control-mode updater. -/
inductive Effect where
  | fetchRelease
  | gitPull
  | npmInstall
  | npmBuild
  | pm2Restart
  | scheduleExit
  | logError
  deriving Repr, DecidableEq

/-- Results of the outside world for one `NextJSUpdater` cycle: the
`package.json` read, the release-feed call (`fetchLatestRelease`
catches every failure and returns `null`, modelled as `none`), the
three shell commands, the PM2 restart, and `NODE_ENV`. -/
structure Env where
  localVersion : Option String
  latestRelease : Option GitHubRelease
  gitPullOk : Bool
  npmInstallOk : Bool
  buildOk : Bool
  pm2Ok : Bool
  isProduction : Bool
  deriving Repr, DecidableEq

/-- `NextJSUpdater.checkForUpdates` (lines 144–181 of `lib/updater`):
fetch the latest release (`none` on any failure), strip a leading `v`
from `tag_name`, and compare with the local version by plain `!==`. -/
def checkForUpdates (env : Env) : CheckResult × List Effect :=
  match env.latestRelease with
  | none =>
    ({ updateAvailable := false, localVersion := env.localVersion,
       latestVersion := none },
     [.fetchRelease])
  | some rel =>
    let latestVersion := Updater.stripLeadingV rel.tag_name
    ({ updateAvailable := Updater.jsNeq env.localVersion (some latestVersion),
       localVersion := env.localVersion,
       latestVersion := some latestVersion,
       releaseInfo := some rel },
     [.fetchRelease])

/-- `NextJSUpdater.performUpdate` (lines 101–142 of `lib/updater`):
`git pull`, `npm install`, `npm run build`, then a PM2 restart whose
failure is caught (in production it schedules a self-exit instead) and
still yields `true`; any earlier step failure yields `false`. -/
def performUpdate (env : Env) : Bool × List Effect :=
  if !env.gitPullOk then (false, [.gitPull, .logError])
  else if !env.npmInstallOk then (false, [.gitPull, .npmInstall, .logError])
  else if !env.buildOk then
    (false, [.gitPull, .npmInstall, .npmBuild, .logError])
  else if env.pm2Ok then
    (true, [.gitPull, .npmInstall, .npmBuild, .pm2Restart])
  else
    (true, [.gitPull, .npmInstall, .npmBuild, .pm2Restart] ++
           (if env.isProduction then [.scheduleExit] else []))

/-- `NextJSUpdater.checkAndUpdate` (lines 183–193 of `lib/updater`):
run the check, and run `performUpdate` only when it reported an update. -/
def checkAndUpdate (env : Env) : Bool × List Effect :=
  let chk := checkForUpdates env
  if chk.1.updateAvailable then
    let upd := performUpdate env
    (upd.1, chk.2 ++ upd.2)
  else (false, chk.2)

end NextJSUpdater

namespace Updater

/-- A character the version token may consist of: an ASCII digit or a dot. -/
def digitOrDot (c : Char) : Bool := c.isDigit || c = '.'

/-- Split a character list at every dot. -/
def splitDots : List Char → List (List Char)
  | [] => [[]]
  | c :: r =>
    if c = '.' then [] :: splitDots r
    else
      match splitDots r with
      | p :: ps => (c :: p) :: ps
      | [] => [[c]]

/-- Rejoin dot-separated parts. -/
def joinDots : List (List Char) → List Char
  | [] => []
  | [p] => p
  | p :: ps => p ++ '.' :: joinDots ps

/-- Modelled from the spec: a token of the shape `MAJOR.MINOR.PATCH[.BUILD]` —
three or four dot-separated nonempty digit runs. -/
def versionShape (ds : List Char) : Bool :=
  let parts := splitDots ds
  (parts.length = 3 || parts.length = 4) &&
    parts.all (fun p => !p.isEmpty && p.all Char.isDigit)

/-- Modelled from the spec: at a fixed position, the maximal digit-or-dot
run, accepted when it has the `MAJOR.MINOR.PATCH[.BUILD]` shape and is
closed by a literal `)`. -/
def spanVersionAt (cs : List Char) : Option (List Char) :=
  if (cs.dropWhile digitOrDot).head? = some ')' ∧
      versionShape (cs.takeWhile digitOrDot) then
    some (cs.takeWhile digitOrDot)
  else none

/-- Modelled from the spec's rendering of the pattern,
`(vMAJOR.MINOR.PATCH[.BUILD])`, read literally: the leading `v` is
mandatory. -/
def specMatchAt : List Char → Option (List Char)
  | '(' :: 'v' :: rest => spanVersionAt rest
  | _ => none

/-- Modelled from the spec as amended: same pattern with the leading `v`
optional, `(v?MAJOR.MINOR.PATCH[.BUILD])`. -/
def specMatchAtOptV : List Char → Option (List Char)
  | '(' :: rest => spanVersionAt (dropOptV rest)
  | _ => none

/-- Leftmost-position search for the spec pattern (mandatory `v`). -/
def specFindVersion : List Char → Option String
  | [] => none
  | c :: cs =>
    match specMatchAt (c :: cs) with
    | some cap => some (String.mk cap)
    | none => specFindVersion cs

/-- Leftmost-position search for the amended spec pattern (optional `v`). -/
def specFindVersionOptV : List Char → Option String
  | [] => none
  | c :: cs =>
    match specMatchAtOptV (c :: cs) with
    | some cap => some (String.mk cap)
    | none => specFindVersionOptV cs

/-- Modelled from the spec: extraction per the spec's words — match the
title against the fixed pattern (with its mandatory `v`); when the title
does not match, fall back to the release tag field with a leading `v`
stripped (a missing or empty tag yields no version). -/
def extractLatestVersionSpec (name tag : Option String) : Option String :=
  let fromTitle :=
    match name with
    | some n => if n = "" then none else specFindVersion n.data
    | none => none
  if jsTruthy fromTitle then fromTitle
  else
    match tag with
    | some t => if t = "" then fromTitle else some (stripLeadingV t)
    | none => fromTitle

/-- Modelled from the spec as amended: same extraction with the leading
`v` of the title pattern optional. -/
def extractLatestVersionSpecOptV (name tag : Option String) : Option String :=
  let fromTitle :=
    match name with
    | some n => if n = "" then none else specFindVersionOptV n.data
    | none => none
  if jsTruthy fromTitle then fromTitle
  else
    match tag with
    | some t => if t = "" then fromTitle else some (stripLeadingV t)
    | none => fromTitle

example : specFindVersion "Release (v1.2.1)".data = some "1.2.1" := by decide
example : specFindVersion "Release (1.2.1)".data = none := by decide
example : specFindVersionOptV "Release (1.2.1)".data = some "1.2.1" := by decide
example : specFindVersionOptV "Release (v1.2.1)".data = some "1.2.1" := by decide
example : specFindVersionOptV "(v1.2.3.4.5)".data = none := by decide
example : specFindVersionOptV "(v1..2.3)".data = none := by decide

end Updater

namespace Updater

theorem dropWhile_eq_self_of_takeWhile_nil {q : Char → Bool} {l : List Char}
    (h : l.takeWhile q = []) : l.dropWhile q = l := by
  cases l with
  | nil => rfl
  | cons a l =>
    by_cases hq : q a
    · simp [List.takeWhile_cons_of_pos hq] at h
    · simp [List.dropWhile_cons_of_neg hq]

theorem digits1_eq_some {cs ds r : List Char} (h : digits1 cs = some (ds, r)) :
    ds = cs.takeWhile Char.isDigit ∧ ds ≠ [] ∧ r = cs.dropWhile Char.isDigit := by
  unfold digits1 at h
  by_cases he : (cs.takeWhile Char.isDigit).isEmpty
  · simp [he] at h
  · simp only [he, if_neg, Bool.false_eq_true, not_false_eq_true, if_false,
      Option.some.injEq, Prod.mk.injEq] at h
    refine ⟨h.1.symm, ?_, h.2.symm⟩
    intro hnil
    rw [h.1] at he
    exact he (by simp [hnil])

theorem digits1_digits_then_stop {p r : List Char} (hall : ∀ c ∈ p, Char.isDigit c)
    (hne : p ≠ []) (hr : r.takeWhile Char.isDigit = []) :
    digits1 (p ++ r) = some (p, r) := by
  unfold digits1
  rw [List.takeWhile_append_of_pos hall, hr,
      List.dropWhile_append_of_pos hall, dropWhile_eq_self_of_takeWhile_nil hr]
  simp [hne]

theorem splitDots_ne_nil : ∀ cs : List Char, splitDots cs ≠ [] := by
  intro cs
  cases cs with
  | nil => simp [splitDots]
  | cons c r =>
    unfold splitDots
    by_cases hc : c = '.'
    · simp [hc]
    · simp only [hc, if_false]
      cases h : splitDots r <;> simp

theorem splitDots_no_dot : ∀ {p : List Char}, (∀ c ∈ p, ¬(c = '.')) →
    splitDots p = [p] := by
  intro p
  induction p with
  | nil => intro _; rfl
  | cons c r ih =>
    intro h
    unfold splitDots
    have hc : ¬(c = '.') := h c (by simp)
    simp only [hc, if_false]
    rw [ih (fun x hx => h x (by simp [hx]))]

theorem splitDots_cons (c : Char) (r : List Char) :
    splitDots (c :: r) =
      if c = '.' then [] :: splitDots r
      else
        match splitDots r with
        | p :: ps => (c :: p) :: ps
        | [] => [[c]] := rfl

theorem joinDots_nil : joinDots [] = [] := rfl

theorem joinDots_single (p : List Char) : joinDots [p] = p := rfl

theorem joinDots_cons2 (p q : List Char) (ps : List (List Char)) :
    joinDots (p :: q :: ps) = p ++ '.' :: joinDots (q :: ps) := rfl

theorem splitDots_append_dot {p : List Char} (r : List Char)
    (hp : ∀ c ∈ p, ¬(c = '.')) :
    splitDots (p ++ '.' :: r) = p :: splitDots r := by
  induction p with
  | nil => simp [splitDots_cons]
  | cons c q ih =>
    have hc : ¬(c = '.') := hp c (by simp)
    have hq : ∀ x ∈ q, ¬(x = '.') := fun x hx => hp x (by simp [hx])
    rw [List.cons_append, splitDots_cons, ih hq]
    simp [hc]

theorem joinDots_splitDots : ∀ cs : List Char, joinDots (splitDots cs) = cs := by
  intro cs
  induction cs with
  | nil => rfl
  | cons c r ih =>
    rw [splitDots_cons]
    by_cases hc : c = '.'
    · simp only [hc, if_pos]
      cases h : splitDots r with
      | nil => exact absurd h (splitDots_ne_nil r)
      | cons p ps =>
        rw [h] at ih
        subst hc
        rw [joinDots_cons2, ih]
        rfl
    · simp only [hc, if_false]
      cases h : splitDots r with
      | nil => exact absurd h (splitDots_ne_nil r)
      | cons p ps =>
        rw [h] at ih
        cases ps with
        | nil =>
          rw [joinDots_single] at ih
          simp [joinDots_single, ih]
        | cons q ps2 =>
          rw [joinDots_cons2] at ih
          simp [joinDots_cons2, ih]

end Updater

namespace Updater

theorem takeWhile_isDigit_dot (x : List Char) :
    ('.' :: x).takeWhile Char.isDigit = [] := by
  simp [List.takeWhile_cons]

theorem takeWhile_isDigit_paren (x : List Char) :
    (')' :: x).takeWhile Char.isDigit = [] := by
  simp [List.takeWhile_cons]

theorem matchCore_parts3 {p1 p2 p3 : List Char} (t : List Char)
    (h1 : p1 ≠ []) (h1d : ∀ c ∈ p1, Char.isDigit c)
    (h2 : p2 ≠ []) (h2d : ∀ c ∈ p2, Char.isDigit c)
    (h3 : p3 ≠ []) (h3d : ∀ c ∈ p3, Char.isDigit c) :
    matchCore (p1 ++ '.' :: (p2 ++ '.' :: (p3 ++ ')' :: t))) =
      some (p1 ++ '.' :: (p2 ++ '.' :: p3)) := by
  unfold matchCore
  rw [digits1_digits_then_stop h1d h1 (takeWhile_isDigit_dot _)]
  simp only [expectDot]
  rw [digits1_digits_then_stop h2d h2 (takeWhile_isDigit_dot _)]
  simp only [expectDot]
  rw [digits1_digits_then_stop h3d h3 (takeWhile_isDigit_paren _)]
  simp [optSplit, closeParen]

theorem matchCore_parts4 {p1 p2 p3 p4 : List Char} (t : List Char)
    (h1 : p1 ≠ []) (h1d : ∀ c ∈ p1, Char.isDigit c)
    (h2 : p2 ≠ []) (h2d : ∀ c ∈ p2, Char.isDigit c)
    (h3 : p3 ≠ []) (h3d : ∀ c ∈ p3, Char.isDigit c)
    (h4 : p4 ≠ []) (h4d : ∀ c ∈ p4, Char.isDigit c) :
    matchCore (p1 ++ '.' :: (p2 ++ '.' :: (p3 ++ '.' :: (p4 ++ ')' :: t)))) =
      some (p1 ++ '.' :: (p2 ++ '.' :: (p3 ++ '.' :: p4))) := by
  unfold matchCore
  rw [digits1_digits_then_stop h1d h1 (takeWhile_isDigit_dot _)]
  simp only [expectDot]
  rw [digits1_digits_then_stop h2d h2 (takeWhile_isDigit_dot _)]
  simp only [expectDot]
  rw [digits1_digits_then_stop h3d h3 (takeWhile_isDigit_dot _)]
  simp [optSplit, closeParen, digits1_digits_then_stop h4d h4 (takeWhile_isDigit_paren t)]

end Updater

namespace Updater

theorem digitOrDot_of_isDigit {c : Char} (h : Char.isDigit c) : digitOrDot c := by
  simp [digitOrDot, h]

theorem not_dot_of_isDigit {c : Char} (h : Char.isDigit c) : ¬(c = '.') := by
  intro he
  subst he
  exact absurd h (by decide)

theorem versionShape_parts3 {p1 p2 p3 : List Char}
    (h1 : p1 ≠ []) (h1d : ∀ c ∈ p1, Char.isDigit c)
    (h2 : p2 ≠ []) (h2d : ∀ c ∈ p2, Char.isDigit c)
    (h3 : p3 ≠ []) (h3d : ∀ c ∈ p3, Char.isDigit c) :
    versionShape (p1 ++ '.' :: (p2 ++ '.' :: p3)) = true := by
  unfold versionShape
  rw [splitDots_append_dot _ (fun c hc => not_dot_of_isDigit (h1d c hc)),
      splitDots_append_dot _ (fun c hc => not_dot_of_isDigit (h2d c hc)),
      splitDots_no_dot (fun c hc => not_dot_of_isDigit (h3d c hc))]
  simp [h1, h2, h3, List.all_eq_true, List.isEmpty_iff]
  exact ⟨h1d, h2d, h3d⟩

theorem versionShape_parts4 {p1 p2 p3 p4 : List Char}
    (h1 : p1 ≠ []) (h1d : ∀ c ∈ p1, Char.isDigit c)
    (h2 : p2 ≠ []) (h2d : ∀ c ∈ p2, Char.isDigit c)
    (h3 : p3 ≠ []) (h3d : ∀ c ∈ p3, Char.isDigit c)
    (h4 : p4 ≠ []) (h4d : ∀ c ∈ p4, Char.isDigit c) :
    versionShape (p1 ++ '.' :: (p2 ++ '.' :: (p3 ++ '.' :: p4))) = true := by
  unfold versionShape
  rw [splitDots_append_dot _ (fun c hc => not_dot_of_isDigit (h1d c hc)),
      splitDots_append_dot _ (fun c hc => not_dot_of_isDigit (h2d c hc)),
      splitDots_append_dot _ (fun c hc => not_dot_of_isDigit (h3d c hc)),
      splitDots_no_dot (fun c hc => not_dot_of_isDigit (h4d c hc))]
  simp [h1, h2, h3, h4, List.all_eq_true, List.isEmpty_iff]
  exact ⟨h1d, h2d, h3d, h4d⟩

end Updater

namespace Updater

theorem all_digitOrDot_parts3 {p1 p2 p3 : List Char}
    (h1d : ∀ c ∈ p1, Char.isDigit c) (h2d : ∀ c ∈ p2, Char.isDigit c)
    (h3d : ∀ c ∈ p3, Char.isDigit c) :
    ∀ c ∈ p1 ++ '.' :: (p2 ++ '.' :: p3), digitOrDot c := by
  intro c hc
  simp only [List.mem_append, List.mem_cons] at hc
  rcases hc with h | h | h | h | h
  · exact digitOrDot_of_isDigit (h1d c h)
  · simp [digitOrDot, h]
  · exact digitOrDot_of_isDigit (h2d c h)
  · simp [digitOrDot, h]
  · exact digitOrDot_of_isDigit (h3d c h)

theorem all_digitOrDot_parts4 {p1 p2 p3 p4 : List Char}
    (h1d : ∀ c ∈ p1, Char.isDigit c) (h2d : ∀ c ∈ p2, Char.isDigit c)
    (h3d : ∀ c ∈ p3, Char.isDigit c) (h4d : ∀ c ∈ p4, Char.isDigit c) :
    ∀ c ∈ p1 ++ '.' :: (p2 ++ '.' :: (p3 ++ '.' :: p4)), digitOrDot c := by
  intro c hc
  simp only [List.mem_append, List.mem_cons] at hc
  rcases hc with h | h | h | h | h | h | h
  · exact digitOrDot_of_isDigit (h1d c h)
  · simp [digitOrDot, h]
  · exact digitOrDot_of_isDigit (h2d c h)
  · simp [digitOrDot, h]
  · exact digitOrDot_of_isDigit (h3d c h)
  · simp [digitOrDot, h]
  · exact digitOrDot_of_isDigit (h4d c h)

theorem spanVersionAt_parts3 {p1 p2 p3 : List Char} (t : List Char)
    (h1 : p1 ≠ []) (h1d : ∀ c ∈ p1, Char.isDigit c)
    (h2 : p2 ≠ []) (h2d : ∀ c ∈ p2, Char.isDigit c)
    (h3 : p3 ≠ []) (h3d : ∀ c ∈ p3, Char.isDigit c) :
    spanVersionAt (p1 ++ '.' :: (p2 ++ '.' :: (p3 ++ ')' :: t))) =
      some (p1 ++ '.' :: (p2 ++ '.' :: p3)) := by
  have hall := all_digitOrDot_parts3 h1d h2d h3d
  have hre : p1 ++ '.' :: (p2 ++ '.' :: (p3 ++ ')' :: t)) =
      (p1 ++ '.' :: (p2 ++ '.' :: p3)) ++ ')' :: t := by simp
  unfold spanVersionAt
  rw [hre, List.takeWhile_append_of_pos hall, List.dropWhile_append_of_pos hall,
      List.takeWhile_cons_of_neg (by decide), List.dropWhile_cons_of_neg (by decide)]
  simp [versionShape_parts3 h1 h1d h2 h2d h3 h3d]

theorem spanVersionAt_parts4 {p1 p2 p3 p4 : List Char} (t : List Char)
    (h1 : p1 ≠ []) (h1d : ∀ c ∈ p1, Char.isDigit c)
    (h2 : p2 ≠ []) (h2d : ∀ c ∈ p2, Char.isDigit c)
    (h3 : p3 ≠ []) (h3d : ∀ c ∈ p3, Char.isDigit c)
    (h4 : p4 ≠ []) (h4d : ∀ c ∈ p4, Char.isDigit c) :
    spanVersionAt (p1 ++ '.' :: (p2 ++ '.' :: (p3 ++ '.' :: (p4 ++ ')' :: t)))) =
      some (p1 ++ '.' :: (p2 ++ '.' :: (p3 ++ '.' :: p4))) := by
  have hall := all_digitOrDot_parts4 h1d h2d h3d h4d
  have hre : p1 ++ '.' :: (p2 ++ '.' :: (p3 ++ '.' :: (p4 ++ ')' :: t))) =
      (p1 ++ '.' :: (p2 ++ '.' :: (p3 ++ '.' :: p4))) ++ ')' :: t := by simp
  unfold spanVersionAt
  rw [hre, List.takeWhile_append_of_pos hall, List.dropWhile_append_of_pos hall,
      List.takeWhile_cons_of_neg (by decide), List.dropWhile_cons_of_neg (by decide)]
  simp [versionShape_parts4 h1 h1d h2 h2d h3 h3d h4 h4d]

end Updater

namespace Updater

theorem expectDot_eq_some {r r' : List Char} (h : expectDot r = some r') :
    r = '.' :: r' := by
  unfold expectDot at h
  split at h
  · cases h; rfl
  · cases h

theorem optSplit_not_dot {c : Char} {r3t : List Char} (hc : ¬(c = '.')) :
    optSplit (c :: r3t) = ([], c :: r3t) := by
  unfold optSplit
  split
  next r3b heq =>
    rw [List.cons_eq_cons] at heq
    exact absurd heq.1 hc
  next => rfl

theorem closeParen_not_paren {c : Char} {t cap : List Char} (hc : ¬(c = ')')) :
    closeParen (c :: t) cap = none := by
  unfold closeParen
  split
  next tail heq =>
    rw [List.cons_eq_cons] at heq
    exact absurd heq.1 hc
  next => rfl

end Updater

namespace Updater

theorem mem_takeWhile_isDigit {cs ds : List Char}
    (hds : ds = cs.takeWhile Char.isDigit) : ∀ c ∈ ds, Char.isDigit c := by
  intro c hc
  rw [hds] at hc
  exact List.mem_takeWhile_imp hc

theorem matchCore_sound {cs cap : List Char} (h : matchCore cs = some cap) :
    spanVersionAt cs = some cap := by
  unfold matchCore at h
  cases hd1 : digits1 cs with
  | none => rw [hd1] at h; exact absurd h (by simp)
  | some pr1 =>
    rw [hd1] at h
    obtain ⟨d1, r1⟩ := pr1
    simp only [] at h
    obtain ⟨hd1t, hd1ne, hd1r⟩ := digits1_eq_some hd1
    have hcs : cs = d1 ++ r1 := by
      rw [hd1t, hd1r, List.takeWhile_append_dropWhile]
    have hd1d := mem_takeWhile_isDigit hd1t
    cases he1 : expectDot r1 with
    | none => rw [he1] at h; exact absurd h (by simp)
    | some r1' =>
      rw [he1] at h
      simp only [] at h
      have hr1 : r1 = '.' :: r1' := expectDot_eq_some he1
      cases hd2 : digits1 r1' with
      | none => rw [hd2] at h; exact absurd h (by simp)
      | some pr2 =>
        rw [hd2] at h
        obtain ⟨d2, r2⟩ := pr2
        simp only [] at h
        obtain ⟨hd2t, hd2ne, hd2r⟩ := digits1_eq_some hd2
        have hr1' : r1' = d2 ++ r2 := by
          rw [hd2t, hd2r, List.takeWhile_append_dropWhile]
        have hd2d := mem_takeWhile_isDigit hd2t
        cases he2 : expectDot r2 with
        | none => rw [he2] at h; exact absurd h (by simp)
        | some r2' =>
          rw [he2] at h
          simp only [] at h
          have hr2 : r2 = '.' :: r2' := expectDot_eq_some he2
          cases hd3 : digits1 r2' with
          | none => rw [hd3] at h; exact absurd h (by simp)
          | some pr3 =>
            rw [hd3] at h
            obtain ⟨d3, r3⟩ := pr3
            simp only [] at h
            obtain ⟨hd3t, hd3ne, hd3r⟩ := digits1_eq_some hd3
            have hr2' : r2' = d3 ++ r3 := by
              rw [hd3t, hd3r, List.takeWhile_append_dropWhile]
            have hd3d := mem_takeWhile_isDigit hd3t
            cases r3 with
            | nil =>
              rw [show optSplit [] = ([], []) from rfl] at h
              exact absurd h (by simp [closeParen])
            | cons c3 t3 =>
              by_cases hc3 : c3 = '.'
              · subst hc3
                cases hd4 : digits1 t3 with
                | none =>
                  rw [show optSplit ('.' :: t3) = ([], '.' :: t3) by
                    simp [optSplit, hd4]] at h
                  rw [closeParen_not_paren (by decide)] at h
                  exact absurd h (by simp)
                | some pr4 =>
                  obtain ⟨d4, r4⟩ := pr4
                  rw [show optSplit ('.' :: t3) = ('.' :: d4, r4) by
                    simp [optSplit, hd4]] at h
                  simp only [] at h
                  obtain ⟨hd4t, hd4ne, hd4r⟩ := digits1_eq_some hd4
                  have ht3 : t3 = d4 ++ r4 := by
                    rw [hd4t, hd4r, List.takeWhile_append_dropWhile]
                  have hd4d := mem_takeWhile_isDigit hd4t
                  cases r4 with
                  | nil => exact absurd h (by simp [closeParen])
                  | cons c4 t4 =>
                    by_cases hc4 : c4 = ')'
                    · subst hc4
                      rw [show closeParen (')' :: t4)
                          (d1 ++ '.' :: d2 ++ '.' :: d3 ++ '.' :: d4) =
                          some (d1 ++ '.' :: d2 ++ '.' :: d3 ++ '.' :: d4) from rfl] at h
                      have hcap : cap = d1 ++ '.' :: (d2 ++ '.' :: (d3 ++ '.' :: d4)) := by
                        have := Option.some.inj h
                        rw [← this]
                        simp
                      have hcs2 : cs =
                          d1 ++ '.' :: (d2 ++ '.' :: (d3 ++ '.' :: (d4 ++ ')' :: t4))) := by
                        rw [hcs, hr1, hr1', hr2, hr2', ht3]
                      rw [hcs2, hcap]
                      exact spanVersionAt_parts4 t4 hd1ne hd1d hd2ne hd2d hd3ne hd3d hd4ne hd4d
                    · rw [closeParen_not_paren hc4] at h
                      exact absurd h (by simp)
              · rw [optSplit_not_dot hc3] at h
                simp only [] at h
                by_cases hcp : c3 = ')'
                · subst hcp
                  rw [show closeParen (')' :: t3)
                      (d1 ++ '.' :: d2 ++ '.' :: d3 ++ []) =
                      some (d1 ++ '.' :: d2 ++ '.' :: d3 ++ []) from rfl] at h
                  have hcap : cap = d1 ++ '.' :: (d2 ++ '.' :: d3) := by
                    have := Option.some.inj h
                    rw [← this]
                    simp
                  have hcs2 : cs = d1 ++ '.' :: (d2 ++ '.' :: (d3 ++ ')' :: t3)) := by
                    rw [hcs, hr1, hr1', hr2, hr2']
                  rw [hcs2, hcap]
                  exact spanVersionAt_parts3 t3 hd1ne hd1d hd2ne hd2d hd3ne hd3d
                · rw [closeParen_not_paren hcp] at h
                  exact absurd h (by simp)

end Updater

namespace Updater

theorem all_digits_of_shape {parts : List (List Char)}
    (h : parts.all (fun p => !p.isEmpty && p.all Char.isDigit)) :
    ∀ p ∈ parts, p ≠ [] ∧ ∀ c ∈ p, Char.isDigit c := by
  intro p hp
  rw [List.all_eq_true] at h
  have := h p hp
  rw [Bool.and_eq_true] at this
  refine ⟨?_, ?_⟩
  · intro hnil
    rw [hnil] at this
    simp at this
  · intro c hc
    have h2 := this.2
    rw [List.all_eq_true] at h2
    exact h2 c hc

theorem spanVersionAt_complete {cs ds : List Char}
    (h : spanVersionAt cs = some ds) : matchCore cs = some ds := by
  unfold spanVersionAt at h
  by_cases hcond : (cs.dropWhile digitOrDot).head? = some ')' ∧
      versionShape (cs.takeWhile digitOrDot)
  · rw [if_pos hcond] at h
    obtain ⟨hpar, hshape⟩ := hcond
    have hds : ds = cs.takeWhile digitOrDot := (Option.some.inj h).symm
    rw [← hds] at hshape
    have hjoin := joinDots_splitDots ds
    unfold versionShape at hshape
    rw [Bool.and_eq_true, Bool.or_eq_true] at hshape
    obtain ⟨hlen, hall⟩ := hshape
    have hparts := all_digits_of_shape hall
    -- the remainder after the span starts with the closing paren
    obtain ⟨t, ht⟩ : ∃ t, cs.dropWhile digitOrDot = ')' :: t := by
      cases hdw : cs.dropWhile digitOrDot with
      | nil => rw [hdw] at hpar; simp at hpar
      | cons c0 t0 =>
        rw [hdw] at hpar
        simp only [List.head?_cons, Option.some.injEq] at hpar
        exact ⟨t0, by rw [hpar]⟩
    have hcs : cs = ds ++ ')' :: t := by
      rw [hds, ← ht, List.takeWhile_append_dropWhile]
    -- split the span into its three or four parts
    cases hsp : splitDots ds with
    | nil => exact absurd hsp (splitDots_ne_nil ds)
    | cons p1 rest1 =>
      rw [hsp] at hjoin hlen
      have hp1 := hparts p1 (by rw [hsp]; simp)
      cases rest1 with
      | nil => simp at hlen
      | cons p2 rest2 =>
        have hp2 := hparts p2 (by rw [hsp]; simp)
        cases rest2 with
        | nil => simp at hlen
        | cons p3 rest3 =>
          have hp3 := hparts p3 (by rw [hsp]; simp)
          cases rest3 with
          | nil =>
            -- three parts
            rw [joinDots_cons2, joinDots_cons2, joinDots_single] at hjoin
            have hcs2 : cs = p1 ++ '.' :: (p2 ++ '.' :: (p3 ++ ')' :: t)) := by
              rw [hcs, ← hjoin]
              simp
            rw [hcs2,
              matchCore_parts3 t hp1.1 hp1.2 hp2.1 hp2.2 hp3.1 hp3.2]
            rw [← hjoin]
          | cons p4 rest4 =>
            have hp4 := hparts p4 (by rw [hsp]; simp)
            cases rest4 with
            | nil =>
              -- four parts
              rw [joinDots_cons2, joinDots_cons2, joinDots_cons2,
                joinDots_single] at hjoin
              have hcs2 : cs =
                  p1 ++ '.' :: (p2 ++ '.' :: (p3 ++ '.' :: (p4 ++ ')' :: t))) := by
                rw [hcs, ← hjoin]
                simp
              rw [hcs2,
                matchCore_parts4 t hp1.1 hp1.2 hp2.1 hp2.2 hp3.1 hp3.2 hp4.1 hp4.2]
              rw [← hjoin]
            | cons p5 rest5 => simp at hlen
  · rw [if_neg hcond] at h
    exact absurd h (by simp)

theorem matchCore_eq_spanVersionAt (cs : List Char) :
    matchCore cs = spanVersionAt cs := by
  cases hs : spanVersionAt cs with
  | some ds => exact spanVersionAt_complete hs
  | none =>
    cases hm : matchCore cs with
    | none => rfl
    | some cap => rw [matchCore_sound hm] at hs; cases hs

end Updater

namespace Updater

theorem matchAt_not_paren {c : Char} {r : List Char} (hc : ¬(c = '(')) :
    matchAt (c :: r) = none := by
  unfold matchAt
  split
  next rest heq =>
    rw [List.cons_eq_cons] at heq
    exact absurd heq.1 hc
  next => rfl

theorem specMatchAtOptV_not_paren {c : Char} {r : List Char} (hc : ¬(c = '(')) :
    specMatchAtOptV (c :: r) = none := by
  unfold specMatchAtOptV
  split
  next rest heq =>
    rw [List.cons_eq_cons] at heq
    exact absurd heq.1 hc
  next => rfl

theorem matchAt_eq_specMatchAtOptV (cs : List Char) :
    matchAt cs = specMatchAtOptV cs := by
  cases cs with
  | nil => rfl
  | cons c r =>
    by_cases hc : c = '('
    · subst hc
      show matchCore (dropOptV r) = spanVersionAt (dropOptV r)
      exact matchCore_eq_spanVersionAt (dropOptV r)
    · rw [matchAt_not_paren hc, specMatchAtOptV_not_paren hc]

theorem findVersionMatch_eq_specFindVersionOptV (cs : List Char) :
    findVersionMatch cs = specFindVersionOptV cs := by
  induction cs with
  | nil => rfl
  | cons c r ih =>
    unfold findVersionMatch specFindVersionOptV
    rw [matchAt_eq_specMatchAtOptV]
    cases specMatchAtOptV (c :: r) with
    | some cap => rfl
    | none => exact ih

/-- The code's extraction coincides with the spec-modelled extraction once
the leading `v` of the title pattern is read as optional. -/
theorem extractLatestVersion_eq_specOptV (name tag : Option String) :
    extractLatestVersion name tag = extractLatestVersionSpecOptV name tag := by
  unfold extractLatestVersion extractLatestVersionSpecOptV titleVersion
  cases name with
  | none => rfl
  | some n =>
    simp only []
    rw [findVersionMatch_eq_specFindVersionOptV]

end Updater

namespace Updater

/-- A release carrying a ZIP asset, as published for this repository. -/
def okRelease : ReleaseData :=
  { name := some "Orbis Ship Latest (v0.0.9)", tag_name := some "v0.0.9",
    assets := [{ name := "orbis-ship.zip",
                 browser_download_url := "https://example.com/orbis-ship.zip" }] }

/-- An update environment in which every step succeeds. -/
def okUpdateEnv : UpdateEnv :=
  { githubFetch := .ok okRelease, downloadOk := true, extractOk := true,
    extractedDirFound := true, copyOk := true }

/-- An update environment that fails: the release has no ZIP asset. -/
def noZipUpdateEnv : UpdateEnv :=
  { githubFetch := .ok { name := some "Orbis Ship Latest (v0.0.9)",
                         tag_name := some "v0.0.9", assets := [] },
    downloadOk := true, extractOk := true,
    extractedDirFound := true, copyOk := true }

/-- An online check environment for the same release. -/
def okCheckEnv : CheckEnv :=
  { internetAvailable := true, githubFetch := .ok okRelease,
    localVersion := some "0.0.9", now := "2026-01-01T00:00:00Z" }

/-- The same check environment with the connectivity probe failing. -/
def offlineCheckEnv : CheckEnv :=
  { internetAvailable := false, githubFetch := .ok okRelease,
    localVersion := some "0.0.9", now := "2026-01-01T00:00:00Z" }

/-- The module's initial `lastUpdateInfo` value. -/
def initialInfo : UpdateInfo :=
  { updateAvailable := false, localVersion := none, latestVersion := none,
    lastCheck := "2026-01-01T00:00:00Z" }

/-- A module state with the background updater running. -/
def initialState : ServerState :=
  { isUpdaterRunning := true, intervalActive := true,
    lastUpdateInfo := initialInfo }

/-- A request environment in which an update would succeed. -/
def postEnvOk : PostEnv := { check := okCheckEnv, upd := okUpdateEnv }

/-- A request environment in which an update fails (no ZIP asset). -/
def postEnvFail : PostEnv := { check := okCheckEnv, upd := noZipUpdateEnv }

/-- A request environment with the connectivity probe failing. -/
def postEnvOffline : PostEnv := { check := offlineCheckEnv, upd := okUpdateEnv }

/-- Two successive runs of the update procedure against the same outside
world — in particular, with no version change between the runs. -/
def performUpdateTwice (env : UpdateEnv) : List (Bool × List Effect) :=
  [performUpdate env, performUpdate env]

theorem performUpdate_no_nested_run (env : UpdateEnv) :
    (performUpdate env).2.count Effect.performUpdateRun = 0 := by
  rw [List.count_eq_zero]
  obtain ⟨gf, dOk, eOk, edf, cOk⟩ := env
  unfold performUpdate
  cases gf with
  | error e => simp
  | ok data =>
    simp only []
    cases hz : findZipAsset data.assets with
    | none => simp
    | some asset =>
      simp only []
      by_cases h1 : dOk <;> by_cases h2 : eOk <;> by_cases h3 : edf <;>
        by_cases h4 : cOk <;> simp [h1, h2, h3, h4]

theorem runsStarted_update (env : PostEnv) (s : ServerState) :
    runsStarted .update env s = 1 := by
  unfold runsStarted POST
  simp only [List.count_cons_self]
  rw [performUpdate_no_nested_run]

end Updater

/-- C1, counterexample.  The claim says a further `update` command while an
update procedure is already in flight is rejected as a no-op and never
starts a second run.  The route's `POST` handler consults no in-progress
flag at all (its module state holds only `isUpdaterRunning`,
`checkInterval` and `lastUpdateInfo`): every `update` request begins a run
of `performUpdate` and is answered with a success envelope, so a request
sequence of two `update` commands starts two runs — the second one is
started regardless of the first being in flight. -/
theorem c1_counterexample :
    Updater.updateRunsStartedBy [.update, .update] Updater.postEnvOk
        Updater.initialState = 2 ∧
    (Updater.POST .update Updater.postEnvOk Updater.initialState).1.success = true ∧
    ((Updater.POST .update Updater.postEnvOk Updater.initialState).2.2).count
        Updater.Effect.performUpdateRun = 1 := by
  refine ⟨?_, by decide, by decide⟩
  show Updater.runsStarted _ _ _ + (Updater.runsStarted _ _ _ + 0) = 2
  rw [Updater.runsStarted_update, Updater.runsStarted_update]

/-- C1 (amended): the server-side `update` command has no re-entrancy
guard.  In every module state and environment — in particular while a
previous run of the update procedure is still in flight — an `update`
command starts exactly one new run of `performUpdate` and is answered
with a `success: true` envelope; it is never rejected as a no-op, so
nothing bounds the number of runs in flight.  (The only guard against
re-entry lives client-side, in the `useUpdater` hook's `isUpdating`
flag.) -/
theorem c1_no_reentrancy_guard (env : Updater.PostEnv) (s : Updater.ServerState) :
    Updater.runsStarted .update env s = 1 ∧
    (Updater.POST .update env s).1.success = true := by
  refine ⟨Updater.runsStarted_update env s, ?_⟩
  simp [Updater.POST]

/-- C2, counterexample.  The claim says a manually triggered `check`
command still attempts the release-feed call while the connectivity probe
reports unavailable.  It does not: the `check` action of `POST` awaits the
same `checkForUpdates` used by the scheduled timer, and that function
returns right after the failed probe — the request's effect trace holds
the probe and no `fetchGithub` call. -/
theorem c2_counterexample :
    (Updater.POST .check Updater.postEnvOffline Updater.initialState).2.2 =
      [Updater.Effect.probeConnectivity] ∧
    Updater.Effect.fetchGithub ∉
      (Updater.POST .check Updater.postEnvOffline Updater.initialState).2.2 := by
  decide

/-- C2 (amended): while the connectivity probe reports unavailable, no
check — scheduled or manual — performs a network call to the release
feed.  A scheduled tick runs `checkForUpdates`, which returns right after
the failed probe with `lastUpdateInfo` untouched; a manual `check`
command runs the very same gated function and likewise performs no
release-feed call. -/
theorem c2_offline_blocks_all_checks (gh : Except Updater.FetchError Updater.ReleaseData)
    (lv : Option String) (now : String) (info : Updater.UpdateInfo)
    (upd : Updater.UpdateEnv) (s : Updater.ServerState) :
    Updater.checkForUpdates ⟨false, gh, lv, now⟩ info =
      (info, [Updater.Effect.probeConnectivity]) ∧
    (Updater.POST .check ⟨⟨false, gh, lv, now⟩, upd⟩ s).2.2 =
      [Updater.Effect.probeConnectivity] := by
  constructor
  · simp [Updater.checkForUpdates]
  · simp [Updater.POST, Updater.checkForUpdates]

/-- C6, counterexample.  The claim says the `update` command's response
returns before the outcome of the update procedure is known and that the
outcome is never observable through the response.  The handler `await`s
`performUpdate` and embeds its boolean result in the response: a failing
environment yields `updatePerformed: false` with the `Update failed`
message, a succeeding one yields `updatePerformed: true` — the response
itself discloses the outcome. -/
theorem c6_counterexample :
    (Updater.POST .update Updater.postEnvFail Updater.initialState).1.updatePerformed =
      some false ∧
    (Updater.POST .update Updater.postEnvFail Updater.initialState).1.message =
      some "Update failed" ∧
    (Updater.POST .update Updater.postEnvOk Updater.initialState).1.updatePerformed =
      some true := by
  decide

/-- C6 (amended): the `update` command's response is produced only after
the update procedure has completed, and it carries the procedure's
outcome: `updatePerformed` always equals `performUpdate`'s boolean result
and the message says `Update failed` exactly on failure.  (Only the
process restart on success happens after the response, via a two-second
delayed `process.exit(0)`.) -/
theorem c6_response_carries_outcome (env : Updater.PostEnv) (s : Updater.ServerState) :
    (Updater.POST .update env s).1.updatePerformed =
      some (Updater.performUpdate env.upd).1 ∧
    (Updater.POST .update env s).1.message =
      some (if (Updater.performUpdate env.upd).1 then
              "Update initiated - application will restart"
            else "Update failed") := by
  constructor <;> simp [Updater.POST]

/-- C9: when the update procedure fails, the `update` command still
answers HTTP 200 with `success: true`; the failure is reported only
through `updatePerformed: false` and the `Update failed` message, never
through `success: false` or an error status code. -/
theorem c9_update_failure_still_http200 (env : Updater.PostEnv)
    (s : Updater.ServerState) (h : (Updater.performUpdate env.upd).1 = false) :
    (Updater.POST .update env s).1 =
      { status := 200, success := true, message := some "Update failed",
        updatePerformed := some false } := by
  simp [Updater.POST, h]

/-- C9, witness: a concrete failing update — the release carries no ZIP
asset — still yields the HTTP 200 success envelope. -/
theorem c9_update_failure_still_http200_witness :
    (Updater.performUpdate Updater.postEnvFail.upd).1 = false ∧
    (Updater.POST .update Updater.postEnvFail Updater.initialState).1 =
      { status := 200, success := true, message := some "Update failed",
        updatePerformed := some false } :=
  ⟨by decide,
   c9_update_failure_still_http200 Updater.postEnvFail Updater.initialState (by decide)⟩

namespace Updater

/-- A release whose title has no version token and whose tag is the bare
string `v`: the tag fallback strips the `v` and leaves the empty string. -/
def bareVEnv : CheckEnv :=
  { internetAvailable := true,
    githubFetch := .ok { name := some "Nightly build", tag_name := some "v" },
    localVersion := some "1.2.0", now := "2026-01-01T00:00:00Z" }

end Updater

/-- C3, counterexample.  The claim quantifies over every pair of non-null
version strings and says the check reports update-available exactly when
they differ.  A release with tag `v` (and an unparseable title) makes the
fallback `tag_name.replace(/^v/, '')` produce the empty string, which is
non-null but falsy: the check records the pair localVersion `1.2.0`,
latestVersion `""` — two different non-null strings — yet returns at the
`if (!latestVersion)` guard with `updateAvailable: false`. -/
theorem c3_counterexample :
    (Updater.checkForUpdates Updater.bareVEnv Updater.initialInfo).1.localVersion =
      some "1.2.0" ∧
    (Updater.checkForUpdates Updater.bareVEnv Updater.initialInfo).1.latestVersion =
      some "" ∧
    some "1.2.0" ≠ (some "" : Option String) ∧
    (Updater.checkForUpdates Updater.bareVEnv Updater.initialInfo).1.updateAvailable =
      false := by
  decide

/-- C3 (amended): for every pair of non-null version strings (local,
latest) with latest nonempty — the empty string arises only from the
literal tag `v` and is treated as "no version determined" — a check
reports update-available exactly when local and latest differ as plain
strings, and up-to-date when they are equal; no semantic-version ordering
is applied, so a lexicographically lower remote version is still reported
as update-available. -/
theorem c3_plain_string_inequality (l v : String) (name tag : Option String)
    (as : List Updater.Asset) (now : String) (info : Updater.UpdateInfo)
    (hx : Updater.extractLatestVersion name tag = some v) (hv : ¬(v = "")) :
    (Updater.checkForUpdates ⟨true, Except.ok ⟨name, tag, as⟩, some l, now⟩ info).1 =
      { updateAvailable := !(l = v), localVersion := some l,
        latestVersion := some v, lastCheck := now, releaseName := name } := by
  unfold Updater.checkForUpdates
  simp only [Bool.not_true, Bool.false_eq_true, if_false, hx]
  by_cases hlv : l = v
  · subst hlv
    simp [Updater.jsTruthy, Updater.jsNeq, hv]
  · simp [Updater.jsTruthy, Updater.jsNeq, hv, hlv]

/-- C3, witness: a remote version that is lexicographically lower than the
local one (`1.2.0` against local `1.2.1`) is still reported as
update-available. -/
theorem c3_plain_string_inequality_witness :
    Updater.extractLatestVersion (some "Rollback (v1.2.0)") none = some "1.2.0" ∧
    ¬("1.2.0" = "") ∧
    (Updater.checkForUpdates
        ⟨true, Except.ok ⟨some "Rollback (v1.2.0)", none, []⟩, some "1.2.1",
          "2026-01-01T00:00:00Z"⟩ Updater.initialInfo).1.updateAvailable = true := by
  refine ⟨by decide, by decide, ?_⟩
  rw [c3_plain_string_inequality "1.2.1" "1.2.0" (some "Rollback (v1.2.0)") none []
    "2026-01-01T00:00:00Z" Updater.initialInfo (by decide) (by decide)]
  decide

/-- C4, counterexample.  The claim says every release whose title has no
parseable version token yields `updateAvailable: false` and
`latestVersion: null`.  The code first falls back to `tag_name`: with an
unparseable title, tag `v9.9.9` and local version `1.2.0`, the check
reports `latestVersion: "9.9.9"` and `updateAvailable: true`. -/
theorem c4_counterexample :
    Updater.titleVersion (some "Latest stable build") = none ∧
    (Updater.checkForUpdates
        ⟨true, Except.ok ⟨some "Latest stable build", some "v9.9.9", []⟩,
          some "1.2.0", "2026-01-01T00:00:00Z"⟩ Updater.initialInfo).1.updateAvailable =
      true ∧
    (Updater.checkForUpdates
        ⟨true, Except.ok ⟨some "Latest stable build", some "v9.9.9", []⟩,
          some "1.2.0", "2026-01-01T00:00:00Z"⟩ Updater.initialInfo).1.latestVersion =
      some "9.9.9" := by
  decide

/-- C4 (amended): for every release whose title yields no parseable
version token and whose tag field yields no fallback either (absent or
empty), the check completes without throwing and its result has
`updateAvailable: false` and `latestVersion: null`. -/
theorem c4_soft_failure_when_no_version (name tag lv : Option String)
    (as : List Updater.Asset) (now : String) (info : Updater.UpdateInfo)
    (ht : Updater.titleVersion name = none)
    (htag : tag = none ∨ tag = some "") :
    (Updater.checkForUpdates ⟨true, Except.ok ⟨name, tag, as⟩, lv, now⟩ info).1 =
      { updateAvailable := false, localVersion := lv, latestVersion := none,
        lastCheck := now, releaseName := name } := by
  unfold Updater.checkForUpdates Updater.extractLatestVersion
  rcases htag with h | h <;> subst h <;> simp [ht, Updater.jsTruthy]

/-- C4, witness: an unparseable title with no tag field yields the soft
no-update result. -/
theorem c4_soft_failure_when_no_version_witness :
    Updater.titleVersion (some "Latest stable build") = none ∧
    (Updater.checkForUpdates
        ⟨true, Except.ok ⟨some "Latest stable build", none, []⟩, some "1.2.0",
          "2026-01-01T00:00:00Z"⟩ Updater.initialInfo).1 =
      { updateAvailable := false, localVersion := some "1.2.0",
        latestVersion := none, lastCheck := "2026-01-01T00:00:00Z",
        releaseName := some "Latest stable build" } :=
  ⟨by decide,
   c4_soft_failure_when_no_version (some "Latest stable build") none (some "1.2.0")
     [] "2026-01-01T00:00:00Z" Updater.initialInfo (by decide) (Or.inl rfl)⟩

/-- C10: when the local version cannot be determined (reads as `null`)
while a nonempty latest version is extracted from the feed, the check
reports update-available — the comparison is the plain strict inequality
`null !== latest`, which holds. -/
theorem c10_null_local_reports_update (v : String) (name tag : Option String)
    (as : List Updater.Asset) (now : String) (info : Updater.UpdateInfo)
    (hx : Updater.extractLatestVersion name tag = some v) (hv : ¬(v = "")) :
    (Updater.checkForUpdates ⟨true, Except.ok ⟨name, tag, as⟩, none, now⟩ info).1 =
      { updateAvailable := true, localVersion := none, latestVersion := some v,
        lastCheck := now, releaseName := name } := by
  unfold Updater.checkForUpdates
  simp [hx, Updater.jsTruthy, Updater.jsNeq, hv]

/-- C10, witness: an unreadable `package.json` (local version `null`)
against feed version `1.2.3`. -/
theorem c10_null_local_reports_update_witness :
    Updater.extractLatestVersion (some "Orbis Ship Latest (v1.2.3)") none =
      some "1.2.3" ∧
    (Updater.checkForUpdates
        ⟨true, Except.ok ⟨some "Orbis Ship Latest (v1.2.3)", none, []⟩, none,
          "2026-01-01T00:00:00Z"⟩ Updater.initialInfo).1.updateAvailable = true := by
  refine ⟨by decide, ?_⟩
  rw [c10_null_local_reports_update "1.2.3" (some "Orbis Ship Latest (v1.2.3)") none
    [] "2026-01-01T00:00:00Z" Updater.initialInfo (by decide) (by decide)]

/-- C5, counterexample.  The claim renders the title pattern as
`(vMAJOR.MINOR.PATCH[.BUILD])` with a mandatory leading `v`.  The code's
regex is `\(v?([0-9]+...)\)` — the `v` is optional: for the title
`Release (1.2.1)` the code extracts `1.2.1` from the title, while the
claimed mandatory-`v` pattern fails on the title and would fall back to
the tag `v9.9.9`, yielding `9.9.9`. -/
theorem c5_counterexample :
    Updater.extractLatestVersion (some "Release (1.2.1)") (some "v9.9.9") =
      some "1.2.1" ∧
    Updater.extractLatestVersionSpec (some "Release (1.2.1)") (some "v9.9.9") =
      some "9.9.9" ∧
    Updater.extractLatestVersion (some "Release (1.2.1)") (some "v9.9.9") ≠
      Updater.extractLatestVersionSpec (some "Release (1.2.1)") (some "v9.9.9") := by
  decide

/-- C5 (amended): the latest version is extracted from the release title
by matching the fixed pattern `(v?MAJOR.MINOR.PATCH[.BUILD])` — the
leading `v` optional and not captured — falling back to the release tag
field with a leading `v` stripped when the title does not match; and the
two concrete scenarios hold: local `1.2.0` with title `Release (v1.2.1)`
yields `{ updateAvailable: true, localVersion: "1.2.0", latestVersion:
"1.2.1" }`, and local `1.2.0` with an unparseable title and tag
`v1.2.0` yields `updateAvailable: false`. -/
theorem c5_extraction_pattern_and_scenarios :
    (∀ name tag : Option String,
      Updater.extractLatestVersion name tag =
        Updater.extractLatestVersionSpecOptV name tag) ∧
    (Updater.checkForUpdates
        ⟨true, Except.ok ⟨some "Release (v1.2.1)", some "v1.2.1", []⟩,
          some "1.2.0", "2026-01-01T00:00:00Z"⟩ Updater.initialInfo).1 =
      { updateAvailable := true, localVersion := some "1.2.0",
        latestVersion := some "1.2.1", lastCheck := "2026-01-01T00:00:00Z",
        releaseName := some "Release (v1.2.1)" } ∧
    (Updater.checkForUpdates
        ⟨true, Except.ok ⟨some "Orbis Ship Stable", some "v1.2.0", []⟩,
          some "1.2.0", "2026-01-01T00:00:00Z"⟩ Updater.initialInfo).1 =
      { updateAvailable := false, localVersion := some "1.2.0",
        latestVersion := some "1.2.0", lastCheck := "2026-01-01T00:00:00Z",
        releaseName := some "Orbis Ship Stable" } :=
  ⟨Updater.extractLatestVersion_eq_specOptV, by decide, by decide⟩

/-- C7: for every outcome of the release-feed call during a check —
network error, non-2xx status, malformed body, all modelled by
`FetchError` — `checkForUpdates` is a total function: the failure is
caught and logged (`logError`), `lastUpdateInfo` is left untouched and
the function returns normally to its caller; and no retry-backoff is
performed — every run of the check makes at most one release-feed call,
so retrying is left to the next scheduled tick. -/
theorem c7_check_never_throws (env : Updater.CheckEnv) (info : Updater.UpdateInfo)
    (e : Updater.FetchError) (lv : Option String) (now : String) :
    ((Updater.checkForUpdates env info).2.count Updater.Effect.fetchGithub ≤ 1) ∧
    Updater.checkForUpdates ⟨true, Except.error e, lv, now⟩ info =
      (info, [Updater.Effect.probeConnectivity, Updater.Effect.fetchGithub,
              Updater.Effect.logError]) := by
  constructor
  · obtain ⟨ia, gf, lv2, now2⟩ := env
    unfold Updater.checkForUpdates
    cases ia with
    | false => simp
    | true =>
      cases gf with
      | error e2 => simp
      | ok data =>
        simp only []
        split_ifs <;> simp
  · simp [Updater.checkForUpdates]

/-- C8, counterexample.  The claim says running the update procedure twice
in succession with no version change produces no observable side effect on
the second run.  The route's `performUpdate` consults no version at all:
with the same environment — the same published release, hence no version
change — the second run repeats the feed call, the download, the
extraction, the `robocopy` over the install directory and schedules
another `process.exit(0)`. -/
theorem c8_counterexample :
    Updater.performUpdateTwice Updater.okUpdateEnv =
      [(true, [Updater.Effect.fetchGithub,
               Updater.Effect.downloadAsset "https://example.com/orbis-ship.zip",
               Updater.Effect.writeZip, Updater.Effect.extractArchive,
               Updater.Effect.copyFiles, Updater.Effect.cleanupTemp,
               Updater.Effect.scheduleExit]),
       (true, [Updater.Effect.fetchGithub,
               Updater.Effect.downloadAsset "https://example.com/orbis-ship.zip",
               Updater.Effect.writeZip, Updater.Effect.extractArchive,
               Updater.Effect.copyFiles, Updater.Effect.cleanupTemp,
               Updater.Effect.scheduleExit])] := by
  decide

/-- C8 (amended): the guarded entry point is idempotent, the raw update
procedure is not.  `NextJSUpdater.checkAndUpdate` runs the update
procedure only behind its version check: when the local version already
equals the latest release's tag (with the leading `v` stripped) — no
version change — a further run performs only the release-feed check,
returns `false`, and executes none of the update procedure's steps. -/
theorem c8_guarded_entry_idempotent (rel : NextJSUpdater.GitHubRelease)
    (g ni b p pr : Bool) :
    NextJSUpdater.checkAndUpdate
      ⟨some (Updater.stripLeadingV rel.tag_name), some rel, g, ni, b, p, pr⟩ =
      (false, [NextJSUpdater.Effect.fetchRelease]) := by
  unfold NextJSUpdater.checkAndUpdate NextJSUpdater.checkForUpdates
  simp [Updater.jsNeq]
